import Mathlib

/-!
Verification development for the nousflash agent repository.

The development shallowly embeds the control and data flow of
`agent/pipeline.py` and `agent/engines/wallet_send.py`:

* the address extractor of `wallet_address_in_post` (the Python regex
  `\b0x[a-fA-F0-9]{40}\b|\b\S+\.eth\b` applied with `re.findall`),
* the wallet-decision and follow-decision retry loops of `run_pipeline`,
* the chain operations `get_wallet_balance`, `transfer_eth` and
  `transfer_erc20` as trace-producing functions over an abstract chain
  environment,
* the broken ERC-20 decision path `erc20_instructions_in_post`.

Machine reals of the Python source (wei amounts, ether amounts, scores)
are embedded as `Int`, `Nat` and `Rat`; the float literal `0.3` of the
balance gate is embedded as the exact rational value of the IEEE-754
double it denotes, since the Decimal balance is compared against that
double exactly.  External collaborators (web3, the LLM endpoint, the
social network) appear as explicit environment data.
-/

namespace Nousflash

/-! ### Character classes of the Python regex (ASCII fragment)

`isWordChar` is the Python `\w` class restricted to ASCII: letters,
digits and underscore (codes 65-90, 97-122, 48-57, 95).  `isHexChar` is
the class `[a-fA-F0-9]`.  `isSpaceChar` is the Python `\s` class
restricted to ASCII: space, tab, newline, carriage return, vertical tab
and form feed. -/

def isWordChar (c : Char) : Bool :=
  (65 ≤ c.toNat && c.toNat ≤ 90) || (97 ≤ c.toNat && c.toNat ≤ 122) ||
    (48 ≤ c.toNat && c.toNat ≤ 57) || c.toNat == 95

def isHexChar (c : Char) : Bool :=
  (48 ≤ c.toNat && c.toNat ≤ 57) || (97 ≤ c.toNat && c.toNat ≤ 102) ||
    (65 ≤ c.toNat && c.toNat ≤ 70)

def isSpaceChar (c : Char) : Bool :=
  c.toNat == 32 || c.toNat == 9 || c.toNat == 10 || c.toNat == 13 ||
    c.toNat == 11 || c.toNat == 12

/-- Word boundary test of Python `\b` between an optional previous
character and the character at the current position: true when exactly
one side is a word character (a missing side counts as non-word). -/
def boundaryAt (prev : Option Char) (c : Char) : Bool :=
  (match prev with
   | none => false
   | some p => isWordChar p) != isWordChar c

/-- Word boundary test after `n` consumed characters of `l`: the
previous character is a word character in every use site, so the
boundary holds exactly when the next character is absent or non-word. -/
def wordBreakAfter (l : List Char) (n : Nat) : Bool :=
  match l.drop n with
  | [] => true
  | d :: _ => !(isWordChar d)

/-- First alternative `\b0x[a-fA-F0-9]{40}\b` attempted at the head of
`cs` (the leading `\b` is checked by the caller).  Returns the match
length `42` on success. -/
def tryAlt1 (cs : List Char) : Option Nat :=
  match cs with
  | c0 :: c1 :: rest =>
    if (c0 == '0') && (c1 == 'x') && ((rest.take 40).length == 40) &&
        (rest.take 40).all isHexChar && wordBreakAfter rest 40
    then some 42 else none
  | _ => none

/-- Success test for the second alternative `\b\S+\.eth\b` with the
`\S+` part matching exactly `j` characters: `j ≥ 1`, the first `j`
characters are non-whitespace, the four following characters are
`.eth`, and a word boundary follows (the character before the boundary
is `h`, a word character). -/
def alt2Ok (cs : List Char) (j : Nat) : Bool :=
  decide (1 ≤ j) && (cs.take j).all (fun c => !(isSpaceChar c)) &&
    ((cs.drop j).take 4 == ['.', 'e', 't', 'h']) && wordBreakAfter cs (j + 4)

/-- Greedy backtracking of `\S+`: the largest `j ≤ n` accepted by
`alt2Ok`, searched from `n` downwards. -/
def bestJ (cs : List Char) : Nat → Option Nat
  | 0 => none
  | j + 1 => if alt2Ok cs (j + 1) then some (j + 1) else bestJ cs j

/-- Second alternative `\b\S+\.eth\b` attempted at the head of `cs`
(the leading `\b` is checked by the caller).  Returns the match length
`j + 4` for the greedy-maximal `j`. -/
def tryAlt2 (cs : List Char) : Option Nat :=
  match bestJ cs cs.length with
  | none => none
  | some j => some (j + 4)

/-- One left-to-right pass of `re.findall` for the pattern
`\b0x[a-fA-F0-9]{40}\b|\b\S+\.eth\b`: at each position the boundary is
checked, the first alternative is preferred, matches are non-overlapping
and scanning resumes right after each match.  `fuel` dominates the
number of remaining characters, so `length + 1` fuel is always enough;
the recursion consumes one fuel unit and at least one character per
step. -/
def scanFuel : Nat → Option Char → List Char → List (List Char)
  | 0, _, _ => []
  | _ + 1, _, [] => []
  | fuel + 1, prev, c :: rest =>
    if boundaryAt prev c then
      match tryAlt1 (c :: rest) with
      | some n =>
        (c :: rest).take n ::
          scanFuel fuel ((c :: rest).get? (n - 1)) ((c :: rest).drop n)
      | none =>
        match tryAlt2 (c :: rest) with
        | some n =>
          (c :: rest).take n ::
            scanFuel fuel ((c :: rest).get? (n - 1)) ((c :: rest).drop n)
        | none => scanFuel fuel (some c) rest
    else scanFuel fuel (some c) rest

/-- `re.findall(eth_pattern, s)` of `wallet_address_in_post`. -/
def pyFindall (s : String) : List String :=
  (scanFuel (s.data.length + 1) none s.data).map (fun l => String.mk l)

/-- The scanning part of `wallet_address_in_post` (and of
`erc20_instructions_in_post`): every input record is coerced to text by
`str`, then the per-record matches are concatenated in order with no
deduplication. -/
def wallet_address_in_post_matches {α : Type} (toStr : α → String)
    (posts : List α) : List String :=
  (posts.map toStr).flatMap pyFindall

/-! ### Shape predicates for extracted strings -/

/-- A `0x`-prefixed 40-hex-digit address, as a character list. -/
def isHexAddrChars (l : List Char) : Bool :=
  match l with
  | c0 :: c1 :: t => (c0 == '0') && (c1 == 'x') && (t.length == 40) && t.all isHexChar
  | _ => false

/-- A non-whitespace string of length at least five ending in `.eth`. -/
def isEthShapeChars (l : List Char) : Bool :=
  decide (5 ≤ l.length) && l.all (fun c => !(isSpaceChar c)) &&
    ((l.drop (l.length - 4)) == ['.', 'e', 't', 'h'])

/-- A string of length at least four ending in `.eth` (the literal
reading of `ends with .eth`, with no further constraint). -/
def endsWithEth (t : List Char) : Bool :=
  decide (4 ≤ t.length) && ((t.drop (t.length - 4)) == ['.', 'e', 't', 'h'])

/-! ### Extractor modelled from the words of the spec

Modelled from the spec for the refinement comparison of claim C3 only:
the spec describes the output as the qualifying tokens of the input,
where a token is a maximal whitespace-delimited run of characters and a
token qualifies when it is a `0x`-prefixed 40-hex-digit address or a
non-whitespace token ending in `.eth`.  The code-side extractor above is
the authority; this definition follows the words of the spec. -/

def tokensAux : List Char → List Char → List (List Char)
  | [], acc => if acc.isEmpty then [] else [acc.reverse]
  | c :: rest, acc =>
    if isSpaceChar c then
      if acc.isEmpty then tokensAux rest [] else acc.reverse :: tokensAux rest []
    else tokensAux rest (c :: acc)

/-- Maximal whitespace-delimited tokens of a string. -/
def specTokens (s : String) : List (List Char) :=
  tokensAux s.data []

/-- A token qualifies per the words of the spec. -/
def specQualifies (t : List Char) : Bool :=
  isHexAddrChars t || endsWithEth t

/-- Extractor per the words of the spec: the qualifying
whitespace-delimited tokens of each record, in order. -/
def specExtract (posts : List String) : List String :=
  posts.flatMap (fun p => ((specTokens p).filter specQualifies).map (fun l => String.mk l))

/-! ### Pipeline orchestrator model

The wallet-decision and follow-decision sections of `run_pipeline`
(`agent/pipeline.py`, lines 40-99), as a trace-producing function.  The
trace records the externally observable calls the cycle makes; the
error component records a Python exception propagating out of
`run_pipeline` (caught only by the outer scheduler loop of
`run_pipeline.py`).

The engine responses are abstracted into their three behaviours at the
call site: `wallet_address_in_post` raises on a non-200 completion
response (and that call is OUTSIDE the try block of the retry loop),
returns non-JSON text (`json.loads` raises `JSONDecodeError`, caught,
counted as a retry), or returns a JSON list of entries whose `address`
or `amount` fields may be missing (`KeyError`, caught, breaks the
loop).  `transfer_eth` never raises (its whole body is wrapped in
try/except and it returns strings), so transfer outcomes cannot abort
the batch; a transfer is therefore recorded as a trace event only. -/

/-- Observable events of one pipeline cycle. -/
inductive Ev
  | walletEngineCall
  | transferEth (address : String) (amount : ℚ)
  | followEngineCall
  | followUser (username : String)
  | restOfCycle
deriving DecidableEq, Repr

/-- Exceptions that can propagate out of `run_pipeline`. -/
inductive PyErr
  | engineHttp
  | followEngineHttp
deriving DecidableEq, Repr

/-- One parsed wallet-decision entry; a `none` field models a missing
JSON key, whose access raises `KeyError`. -/
structure WalletEntry where
  address : Option String
  amount : Option ℚ
deriving DecidableEq, Repr

/-- Behaviour of one `wallet_address_in_post` call at its call site. -/
inductive WalletResp
  | httpError
  | malformed
  | wellFormed (ws : List WalletEntry)
deriving DecidableEq, Repr

/-- One parsed follow-decision entry. -/
structure FollowEntry where
  username : Option String
  score : Option ℚ
deriving DecidableEq, Repr

/-- Behaviour of one `decide_to_follow_users` call at its call site.
Modelled from the spec for the section structure only: the follow
engine source (`engines/follow_user.py`) is not under `src/`; the spec
states the follow cycle uses the same bounded-retry and parse-validate
pattern against a separate completion call. -/
inductive FollowResp
  | httpError
  | malformed
  | wellFormed (fs : List FollowEntry)
deriving DecidableEq, Repr

/-- Exact rational value of the IEEE-754 double denoted by the Python
literal `0.3` in `get_wallet_balance(...) > 0.3`; the Decimal ether
balance is compared against that double exactly. -/
def floatPointThree : ℚ := 5404319552844595 / 18014398509481984

/-- Exact rational value of the double denoted by the literal `0.98` in
the follow-score comparison. -/
def floatPointNinetyEight : ℚ := 8827055269646172 / 9007199254740992

/-- Lines 52-55 of `pipeline.py`: iterate the parsed entries in order,
reading `address` then `amount` and transferring; a missing key raises
`KeyError`, which the loop catches and turns into a break, so the
remaining entries are dropped while earlier transfers stand. -/
def execEntries : List WalletEntry → List Ev
  | [] => []
  | e :: rest =>
    match e.address with
    | none => []
    | some a =>
      match e.amount with
      | none => []
      | some m => Ev.transferEth a m :: execEntries rest

/-- Lines 43-66 of `pipeline.py`: the wallet-decision retry loop with
`tries` running to `max_tries = 2`.  The first component of the result
is the trace, the second a propagating exception.  `attempt` is the
index of the next engine call, `remaining` the remaining tries. -/
def walletLoop (wresp : Nat → WalletResp) : Nat → Nat → List Ev × Option PyErr
  | _, 0 => ([], none)
  | attempt, remaining + 1 =>
    match wresp attempt with
    | WalletResp.httpError => ([Ev.walletEngineCall], some PyErr.engineHttp)
    | WalletResp.malformed =>
      let r := walletLoop wresp (attempt + 1) remaining
      (Ev.walletEngineCall :: r.1, r.2)
    | WalletResp.wellFormed ws => (Ev.walletEngineCall :: execEntries ws, none)

/-- Lines 78-85 of `pipeline.py`: iterate parsed follow decisions,
following when the score exceeds the threshold; a missing key raises
`KeyError`, caught as a break. -/
def execFollows : List FollowEntry → List Ev
  | [] => []
  | e :: rest =>
    match e.username with
    | none => []
    | some u =>
      match e.score with
      | none => []
      | some s =>
        if s > floatPointNinetyEight then Ev.followUser u :: execFollows rest
        else execFollows rest

/-- Lines 69-99 of `pipeline.py`: the follow-decision retry loop, of
the same shape as the wallet loop; the engine call is likewise outside
the try block, so its raised exception propagates. -/
def followLoop (fresp : Nat → FollowResp) : Nat → Nat → List Ev × Option PyErr
  | _, 0 => ([], none)
  | attempt, remaining + 1 =>
    match fresp attempt with
    | FollowResp.httpError => ([Ev.followEngineCall], some PyErr.followEngineHttp)
    | FollowResp.malformed =>
      let r := followLoop fresp (attempt + 1) remaining
      (Ev.followEngineCall :: r.1, r.2)
    | FollowResp.wellFormed fs => (Ev.followEngineCall :: execFollows fs, none)

/-- The cycle body of `run_pipeline` from the notification test onward
(lines 40-151): when the notification context is non-empty, the
balance-gated wallet-decision loop runs, then the follow-decision loop,
then the remaining steps 3-9 (collapsed into one `restOfCycle` event,
since no claim depends on their internals); a propagating exception
aborts everything after its position. -/
def runCycle (notif : List String) (bal : ℚ) (wresp : Nat → WalletResp)
    (fresp : Nat → FollowResp) : List Ev × Option PyErr :=
  if notif.length > 0 then
    let wp := if bal > floatPointThree then walletLoop wresp 0 2 else ([], none)
    match wp.2 with
    | some e => (wp.1, some e)
    | none =>
      let fp := followLoop fresp 0 2
      match fp.2 with
      | some e => (wp.1 ++ fp.1, some e)
      | none => (wp.1 ++ fp.1 ++ [Ev.restOfCycle], none)
  else ([Ev.restOfCycle], none)

/-! ### Chain client model

`get_wallet_balance`, `transfer_eth` and `transfer_erc20` of
`agent/engines/wallet_send.py`, as trace-producing functions over an
abstract chain environment.  The web3 collaborator is external to the
repository, so its observable behaviour at the call sites is
environment data: connectivity, the address well-formedness test
`Web3.is_address`, the checksum normalisation `Web3.to_checksum_address`
(deterministic; it maps an already checksum-valid address to itself),
the ENS resolver, the balances, and the receipt status of a submitted
transaction.  Transaction contents other than the recipient (value,
gas, gas price, nonce, chain id) are built and signed but examined by
no claim, so the sign event records the recipient only. -/

/-- Abstract chain and web3 environment. -/
structure ChainEnv where
  connected : Bool
  isAddress : String → Bool
  toChecksum : String → String
  ens : String → Option String
  tokenBalance : ℤ
  nativeBalance : ℚ
  gasPrice : ℕ
  nonce : ℕ
  txStatus : Bool
  txHash : String

/-- Observable chain-client events. -/
inductive TEv
  | getBalanceCall
  | ensLookup (name : String)
  | balanceOfCall
  | nonceRead
  | signTx (recipient : String)
  | submitTx
deriving DecidableEq, Repr

/-- Results of one transfer attempt (the function returns strings in
the source; the constructors mirror the distinct return shapes). -/
inductive TResult
  | connectionFailed
  | unresolvedName (name : String)
  | insufficientBalance (available required : ℤ)
  | txSucceeded (hash : String)
  | txFailed
deriving DecidableEq, Repr

/-- Lines 9-17 of `wallet_send.py`: query the native balance of the
account behind the key, in ether. -/
def get_wallet_balance (env : ChainEnv) : List TEv × ℚ :=
  ([TEv.getBalanceCall], env.nativeBalance)

/-- Lines 114-149 of `wallet_send.py`, after the recipient is resolved:
query the token balance via `balanceOf`, fail fast when it is below the
requested amount, otherwise read the nonce, build, sign, submit and wait
for the receipt. -/
def erc20AfterResolve (env : ChainEnv) (resolved : String) (amount : ℤ)
    (evs : List TEv) : List TEv × TResult :=
  if env.tokenBalance < amount then
    (evs ++ [TEv.balanceOfCall], TResult.insufficientBalance env.tokenBalance amount)
  else if env.txStatus then
    (evs ++ [TEv.balanceOfCall, TEv.nonceRead, TEv.signTx resolved, TEv.submitTx],
      TResult.txSucceeded env.txHash)
  else
    (evs ++ [TEv.balanceOfCall, TEv.nonceRead, TEv.signTx resolved, TEv.submitTx],
      TResult.txFailed)

/-- Lines 45-149 of `wallet_send.py`: check connectivity, use the
recipient unchanged (checksum-normalised) when `Web3.is_address`
accepts it and resolve it through ENS otherwise, then run the balance
check and submission path. -/
def transfer_erc20 (env : ChainEnv) (toAddress : String) (amount : ℤ) :
    List TEv × TResult :=
  if env.connected then
    if env.isAddress toAddress then
      erc20AfterResolve env (env.toChecksum toAddress) amount []
    else
      match env.ens toAddress with
      | none => ([TEv.ensLookup toAddress], TResult.unresolvedName toAddress)
      | some a => erc20AfterResolve env a amount [TEv.ensLookup toAddress]
  else ([], TResult.connectionFailed)

/-- Lines 194-220 of `wallet_send.py`, after the recipient is resolved:
read the nonce, build, sign, submit and wait for the receipt; no
balance of any kind is queried on this path. -/
def ethAfterResolve (env : ChainEnv) (resolved : String) (evs : List TEv) :
    List TEv × TResult :=
  if env.txStatus then
    (evs ++ [TEv.nonceRead, TEv.signTx resolved, TEv.submitTx],
      TResult.txSucceeded env.txHash)
  else
    (evs ++ [TEv.nonceRead, TEv.signTx resolved, TEv.submitTx], TResult.txFailed)

/-- Lines 151-222 of `wallet_send.py`: the native transfer, with the
same connectivity and resolve-or-pass-through steps as the token path
(the ether amount only enters the transaction value, which no claim
examines). -/
def transfer_eth (env : ChainEnv) (toAddress : String) (_amountEther : ℚ) :
    List TEv × TResult :=
  if env.connected then
    if env.isAddress toAddress then
      ethAfterResolve env (env.toChecksum toAddress) []
    else
      match env.ens toAddress with
      | none => ([TEv.ensLookup toAddress], TResult.unresolvedName toAddress)
      | some a => ethAfterResolve env a [TEv.ensLookup toAddress]
  else ([], TResult.connectionFailed)

/-! ### The ERC-20 decision path of claim C7

`erc20_instructions_in_post` (lines 281-345 of `wallet_send.py`) calls
`get_wallet_balance(private_key, eth_mainnet_rpc_url, erc20_address)`
with three arguments, while `get_wallet_balance` (line 9) declares
exactly two positional parameters, so the Python call raises
`TypeError` before the completion request is issued.  The embedding
models Python call semantics by checking the argument count of the
call against the parameter count of the definition. -/

/-- Observable events of `erc20_instructions_in_post`. -/
inductive EEv
  | balanceCall (argCount : Nat)
  | httpPost
deriving DecidableEq, Repr

/-- Exceptions of the ERC-20 decision path. -/
inductive PyExn
  | typeError
  | engineException
deriving DecidableEq, Repr

/-- Parameter count of `def get_wallet_balance(private_key,
eth_mainnet_rpc_url)` at line 9 of `wallet_send.py`. -/
def getWalletBalanceParamCount : Nat := 2

/-- Python call semantics for `get_wallet_balance`: a call whose
argument count differs from the parameter count raises `TypeError`
before the body runs. -/
def callGetWalletBalance (args : List String) (bal : ℚ) : Except PyExn ℚ :=
  if args.length = getWalletBalanceParamCount then Except.ok bal
  else Except.error PyExn.typeError

/-- Completion-endpoint behaviour for the ERC-20 decision path. -/
structure HttpEnv where
  status : Nat
  content : String

def noTransferSentinel : String := "NO_TRANSFER"

/-- Lines 281-345 of `wallet_send.py`: coerce the posts to text, scan
them with the shared regex, query the balance (with three arguments),
then issue the completion request and return its decision text, mapping
the `NO_TRANSFER` sentinel to no decision and raising on a non-200
status. -/
def erc20_instructions_in_post (posts : List String)
    (privateKey rpcUrl erc20Addr : String) (bal : ℚ) (http : HttpEnv) :
    List EEv × Except PyExn (Option String) :=
  let _matches := posts.flatMap pyFindall
  match callGetWalletBalance [privateKey, rpcUrl, erc20Addr] bal with
  | Except.error e => ([EEv.balanceCall 3], Except.error e)
  | Except.ok _wb =>
    if http.status = 200 then
      if http.content = noTransferSentinel then
        ([EEv.balanceCall 3, EEv.httpPost], Except.ok none)
      else ([EEv.balanceCall 3, EEv.httpPost], Except.ok (some http.content))
    else ([EEv.balanceCall 3, EEv.httpPost], Except.error PyExn.engineException)

/-! ### Helper lemmas on the pipeline model -/

lemma execEntries_events {l : List WalletEntry} {e : Ev} (h : e ∈ execEntries l) :
    ∃ a m, e = Ev.transferEth a m := by
  induction l with
  | nil => simp [execEntries] at h
  | cons x rest ih =>
    unfold execEntries at h
    cases hx : x.address with
    | none => rw [hx] at h; simp at h
    | some a =>
      rw [hx] at h
      cases hm : x.amount with
      | none => rw [hm] at h; simp at h
      | some m =>
        rw [hm] at h
        rcases List.mem_cons.mp h with h1 | h2
        · exact ⟨a, m, h1⟩
        · exact ih h2

lemma execEntries_no_walletCall (l : List WalletEntry) :
    Ev.walletEngineCall ∉ execEntries l := by
  intro h
  rcases execEntries_events h with ⟨a, m, hm⟩
  exact Ev.noConfusion hm

lemma execFollows_events {l : List FollowEntry} {e : Ev} (h : e ∈ execFollows l) :
    ∃ u, e = Ev.followUser u := by
  induction l with
  | nil => simp [execFollows] at h
  | cons x rest ih =>
    unfold execFollows at h
    cases hx : x.username with
    | none => rw [hx] at h; simp at h
    | some u =>
      rw [hx] at h
      cases hs : x.score with
      | none => rw [hs] at h; simp at h
      | some s =>
        rw [hs] at h
        by_cases hgt : s > floatPointNinetyEight
        · simp only [hgt, if_true] at h
          rcases List.mem_cons.mp h with h1 | h2
          · exact ⟨u, h1⟩
          · exact ih h2
        · simp only [hgt, if_false] at h
          exact ih h

lemma followLoop_events {fresp : Nat → FollowResp} {e : Ev} :
    ∀ a n, e ∈ (followLoop fresp a n).1 →
      e = Ev.followEngineCall ∨ ∃ u, e = Ev.followUser u := by
  intro a n
  induction n generalizing a with
  | zero => intro h; simp [followLoop] at h
  | succ n ih =>
    intro h
    unfold followLoop at h
    cases hr : fresp a with
    | httpError => rw [hr] at h; simp at h; exact Or.inl h
    | malformed =>
      rw [hr] at h
      rcases List.mem_cons.mp h with h1 | h2
      · exact Or.inl h1
      · exact ih _ h2
    | wellFormed fs =>
      rw [hr] at h
      rcases List.mem_cons.mp h with h1 | h2
      · exact Or.inl h1
      · exact Or.inr (execFollows_events h2)

lemma followLoop_no_walletCall (fresp : Nat → FollowResp) (a n : Nat) :
    Ev.walletEngineCall ∉ (followLoop fresp a n).1 := by
  intro h
  rcases followLoop_events a n h with h1 | ⟨u, h2⟩
  · exact Ev.noConfusion h1
  · exact Ev.noConfusion h2

lemma followLoop_err_none {fresp : Nat → FollowResp}
    (hf : ∀ k, fresp k ≠ FollowResp.httpError) (a n : Nat) :
    (followLoop fresp a n).2 = none := by
  induction n generalizing a with
  | zero => simp [followLoop]
  | succ n ih =>
    unfold followLoop
    cases hr : fresp a with
    | httpError => exact absurd hr (hf a)
    | malformed => simpa using ih (a + 1)
    | wellFormed fs => simp

lemma execEntries_all_present {good : List WalletEntry}
    (hgood : ∀ e ∈ good, e.address.isSome ∧ e.amount.isSome) :
    (execEntries good).length = good.length := by
  induction good with
  | nil => simp [execEntries]
  | cons x rest ih =>
    have hx := hgood x (List.mem_cons_self x rest)
    rcases Option.isSome_iff_exists.mp hx.1 with ⟨a, ha⟩
    rcases Option.isSome_iff_exists.mp hx.2 with ⟨m, hm⟩
    unfold execEntries
    rw [ha, hm]
    simp [ih (fun e he => hgood e (List.mem_cons_of_mem x he))]

lemma execEntries_append_missing {good : List WalletEntry} {bad : WalletEntry}
    (rest : List WalletEntry)
    (hgood : ∀ e ∈ good, e.address.isSome ∧ e.amount.isSome)
    (hbad : bad.address = none ∨ bad.amount = none) :
    execEntries (good ++ bad :: rest) = execEntries good := by
  induction good with
  | nil =>
    rcases hbad with hb | hb
    · simp [execEntries, hb]
    · cases ha : bad.address with
      | none => simp [execEntries, ha]
      | some a => simp [execEntries, ha, hb]
  | cons x xs ih =>
    have hx := hgood x (List.mem_cons_self x xs)
    rcases Option.isSome_iff_exists.mp hx.1 with ⟨a, ha⟩
    rcases Option.isSome_iff_exists.mp hx.2 with ⟨m, hm⟩
    simp only [List.cons_append]
    unfold execEntries
    rw [ha, hm, ih (fun e he => hgood e (List.mem_cons_of_mem x he))]

/-! ### Claims C1, C4, C5, C6, C9: the orchestrator and executor -/

/-- C1 (counterexample): with a non-empty notification context, a
balance above the gate and a completion endpoint answering non-2xx, the
engine error propagates out of the whole cycle and the remaining
orchestrator steps do not run, contradicting the claim that the caller
wraps the engine call in its bounded retry and the rest of the cycle
still runs. -/
theorem c1_counterexample :
    (runCycle ["hi"] 1 (fun _ => WalletResp.httpError)
        (fun _ => FollowResp.wellFormed [])).2 = some PyErr.engineHttp ∧
      Ev.restOfCycle ∉ (runCycle ["hi"] 1 (fun _ => WalletResp.httpError)
        (fun _ => FollowResp.wellFormed [])).1 ∧
      Ev.followEngineCall ∉ (runCycle ["hi"] 1 (fun _ => WalletResp.httpError)
        (fun _ => FollowResp.wellFormed [])).1 := by
  have hb : (1 : ℚ) > floatPointThree := by norm_num [floatPointThree]
  constructor
  · simp [runCycle, walletLoop, hb]
  constructor
  · simp [runCycle, walletLoop, hb]
  · simp [runCycle, walletLoop, hb]

/-- C1 (amended): a non-2xx response from the completion endpoint makes
the Transfer Decision Engine raise a propagating error that is fatal to
the entire remaining pipeline cycle, not only to the wallet-decision
sub-step: the engine call is outside the try block of the bounded retry
(which catches only parse and key errors), so the error escapes
`run_pipeline` and the remaining orchestrator steps of that cycle do
not run; only the outer scheduler loop catches it. -/
theorem c1_non2xx_aborts_cycle (notif : List String) (bal : ℚ)
    (wresp : Nat → WalletResp) (fresp : Nat → FollowResp)
    (hn : notif ≠ []) (hb : bal > floatPointThree)
    (h : wresp 0 = WalletResp.httpError ∨
      (wresp 0 = WalletResp.malformed ∧ wresp 1 = WalletResp.httpError)) :
    (runCycle notif bal wresp fresp).2 = some PyErr.engineHttp ∧
      Ev.restOfCycle ∉ (runCycle notif bal wresp fresp).1 ∧
      Ev.followEngineCall ∉ (runCycle notif bal wresp fresp).1 := by
  have hlen : 0 < notif.length := List.length_pos.mpr hn
  have hw : walletLoop wresp 0 2 = ([Ev.walletEngineCall], some PyErr.engineHttp) ∨
      walletLoop wresp 0 2 =
        ([Ev.walletEngineCall, Ev.walletEngineCall], some PyErr.engineHttp) := by
    rcases h with h0 | ⟨h0, h1⟩
    · left; simp [walletLoop, h0]
    · right; simp [walletLoop, h0, h1]
  rcases hw with hw | hw <;>
    simp [runCycle, hlen, hb, hw]

/-- C4: when the decision engine returns malformed (non-JSON) text on
both attempts, the wallet-decision executor retries up to the fixed
budget of 2 attempts total and then gives up silently: the parse
failures raise nothing past the cycle boundary and the rest of the
cycle proceeds. -/
theorem c4_two_malformed_retries (notif : List String) (bal : ℚ)
    (wresp : Nat → WalletResp) (fresp : Nat → FollowResp)
    (hn : notif ≠ []) (hb : bal > floatPointThree)
    (h0 : wresp 0 = WalletResp.malformed) (h1 : wresp 1 = WalletResp.malformed)
    (hf : ∀ k, fresp k ≠ FollowResp.httpError) :
    (runCycle notif bal wresp fresp).1.count Ev.walletEngineCall = 2 ∧
      (runCycle notif bal wresp fresp).2 = none ∧
      Ev.restOfCycle ∈ (runCycle notif bal wresp fresp).1 := by
  have hlen : 0 < notif.length := List.length_pos.mpr hn
  have hw : walletLoop wresp 0 2 =
      ([Ev.walletEngineCall, Ev.walletEngineCall], none) := by
    simp [walletLoop, h0, h1]
  have hfe : (followLoop fresp 0 2).2 = none := followLoop_err_none hf 0 2
  have hcount : (followLoop fresp 0 2).1.count Ev.walletEngineCall = 0 :=
    List.count_eq_zero.mpr (followLoop_no_walletCall fresp 0 2)
  refine ⟨?_, ?_, ?_⟩ <;>
    simp [runCycle, hlen, hb, hw, hfe, List.count_append, hcount]

/-- C5: a parsed decision entry with a missing required field aborts
the remaining entries of that decision without triggering a retry of
the whole decision step, and the transfers already executed for earlier
entries stand: the executor makes exactly one engine call, performs one
transfer per earlier complete entry, and raises nothing. -/
theorem c5_missing_field_aborts_rest (wresp : Nat → WalletResp)
    (good : List WalletEntry) (bad : WalletEntry) (rest : List WalletEntry)
    (hgood : ∀ e ∈ good, e.address.isSome ∧ e.amount.isSome)
    (hbad : bad.address = none ∨ bad.amount = none)
    (h0 : wresp 0 = WalletResp.wellFormed (good ++ bad :: rest)) :
    walletLoop wresp 0 2 = (Ev.walletEngineCall :: execEntries good, none) ∧
      (execEntries good).length = good.length ∧
      (walletLoop wresp 0 2).1.count Ev.walletEngineCall = 1 := by
  have hexec : execEntries (good ++ bad :: rest) = execEntries good :=
    execEntries_append_missing rest hgood hbad
  have hw : walletLoop wresp 0 2 = (Ev.walletEngineCall :: execEntries good, none) := by
    simp [walletLoop, h0, hexec]
  refine ⟨hw, execEntries_all_present hgood, ?_⟩
  rw [hw]
  simp [List.count_cons, List.count_eq_zero.mpr (execEntries_no_walletCall good)]

/-- C6: whenever the native balance does not exceed the configured
minimum threshold (the double literal `0.3` of the source, embedded
exactly), the wallet-decision cycle makes zero calls to the Transfer
Decision Engine: the balance gate short-circuits before any completion
call. -/
theorem c6_balance_gate (notif : List String) (bal : ℚ)
    (wresp : Nat → WalletResp) (fresp : Nat → FollowResp)
    (hb : bal ≤ floatPointThree) :
    (runCycle notif bal wresp fresp).1.count Ev.walletEngineCall = 0 := by
  have hgate : ¬ (bal > floatPointThree) := not_lt.mpr hb
  have hcount : (followLoop fresp 0 2).1.count Ev.walletEngineCall = 0 :=
    List.count_eq_zero.mpr (followLoop_no_walletCall fresp 0 2)
  by_cases hn : notif.length > 0
  · cases hfe : (followLoop fresp 0 2).2 with
    | none => simp [runCycle, hn, hgate, hfe, List.count_append, hcount]
    | some e => simp [runCycle, hn, hgate, hfe, List.count_append, hcount]
  · simp [runCycle, hn]

/-- C9: a parsed decision payload that is the empty sequence makes the
Transfer Executor terminate the wallet-decision step as a successful
no-op: one engine call, zero transfer invocations, no retry and no
propagating error. -/
theorem c9_empty_decision_noop (wresp : Nat → WalletResp)
    (h0 : wresp 0 = WalletResp.wellFormed []) :
    walletLoop wresp 0 2 = ([Ev.walletEngineCall], none) ∧
      ∀ a m, Ev.transferEth a m ∉ (walletLoop wresp 0 2).1 := by
  have hw : walletLoop wresp 0 2 = ([Ev.walletEngineCall], none) := by
    simp [walletLoop, h0, execEntries]
  refine ⟨hw, ?_⟩
  intro a m hmem
  rw [hw] at hmem
  simp at hmem

/-! ### Helper lemmas on the chain model -/

lemma ethAfterResolve_events (env : ChainEnv) (r : String) (evs : List TEv) :
    (ethAfterResolve env r evs).1 = evs ++ [TEv.nonceRead, TEv.signTx r, TEv.submitTx] := by
  unfold ethAfterResolve
  by_cases ht : env.txStatus <;> simp [ht]

lemma erc20AfterResolve_insufficient (env : ChainEnv) (r : String) (amount : ℤ)
    (evs : List TEv) (h : env.tokenBalance < amount) :
    erc20AfterResolve env r amount evs =
      (evs ++ [TEv.balanceOfCall], TResult.insufficientBalance env.tokenBalance amount) := by
  simp [erc20AfterResolve, h]

lemma erc20AfterResolve_sufficient_events (env : ChainEnv) (r : String) (amount : ℤ)
    (evs : List TEv) (h : ¬ env.tokenBalance < amount) :
    (erc20AfterResolve env r amount evs).1 =
      evs ++ [TEv.balanceOfCall, TEv.nonceRead, TEv.signTx r, TEv.submitTx] := by
  unfold erc20AfterResolve
  by_cases ht : env.txStatus <;> simp [h, ht]

lemma erc20AfterResolve_balanceOf_mem (env : ChainEnv) (r : String) (amount : ℤ)
    (evs : List TEv) : TEv.balanceOfCall ∈ (erc20AfterResolve env r amount evs).1 := by
  by_cases h : env.tokenBalance < amount
  · rw [erc20AfterResolve_insufficient env r amount evs h]; simp
  · rw [erc20AfterResolve_sufficient_events env r amount evs h]; simp

/-! ### Claims C2, C8, C10: the transfer operations -/

/-- C2: every `transfer_erc20` call that reaches the balance query (it
is connected and the recipient resolves) with a requested amount
exceeding the queried token balance returns the insufficient-balance
failure and neither signs nor submits any transaction. -/
theorem c2_insufficient_balance_fail_fast (env : ChainEnv) (toAddress : String)
    (amount : ℤ) (hc : env.connected = true)
    (hr : env.isAddress toAddress = true ∨ (env.ens toAddress).isSome)
    (hlt : env.tokenBalance < amount) :
    (transfer_erc20 env toAddress amount).2 =
      TResult.insufficientBalance env.tokenBalance amount ∧
      (∀ a, TEv.signTx a ∉ (transfer_erc20 env toAddress amount).1) ∧
      TEv.submitTx ∉ (transfer_erc20 env toAddress amount).1 := by
  by_cases ha : env.isAddress toAddress = true
  · rw [show transfer_erc20 env toAddress amount =
        erc20AfterResolve env (env.toChecksum toAddress) amount [] by
          simp [transfer_erc20, hc, ha],
      erc20AfterResolve_insufficient env _ amount [] hlt]
    simp
  · rcases hr with h | h
    · exact absurd h ha
    · rcases Option.isSome_iff_exists.mp h with ⟨a, hens⟩
      rw [show transfer_erc20 env toAddress amount =
          erc20AfterResolve env a amount [TEv.ensLookup toAddress] by
            simp [transfer_erc20, hc, ha, hens],
        erc20AfterResolve_insufficient env a amount _ hlt]
      simp

/-- C8: a recipient string accepted by the address well-formedness test
and mapped to itself by checksum normalisation (an already
checksum-valid address) is used unchanged by both `transfer_eth` and
`transfer_erc20` as the transaction recipient, and neither function
issues an ENS lookup for it; conversely `transfer_eth` performs an ENS
lookup only for inputs the well-formedness test rejects. -/
theorem c8_checksum_identity_no_ens (env : ChainEnv) (toAddress : String)
    (amountE : ℚ) (amountT : ℤ)
    (haddr : env.isAddress toAddress = true)
    (hid : env.toChecksum toAddress = toAddress) :
    (∀ n, TEv.ensLookup n ∉ (transfer_eth env toAddress amountE).1) ∧
      (∀ n, TEv.ensLookup n ∉ (transfer_erc20 env toAddress amountT).1) ∧
      (env.connected = true →
        TEv.signTx toAddress ∈ (transfer_eth env toAddress amountE).1) ∧
      (env.connected = true → ¬ env.tokenBalance < amountT →
        TEv.signTx toAddress ∈ (transfer_erc20 env toAddress amountT).1) ∧
      (∀ t, (∃ n, TEv.ensLookup n ∈ (transfer_eth env t amountE).1) →
        env.isAddress t = false) := by
  refine ⟨?_, ?_, ?_, ?_, ?_⟩
  · intro n hmem
    by_cases hc : env.connected
    · rw [show (transfer_eth env toAddress amountE).1 =
          (ethAfterResolve env (env.toChecksum toAddress) []).1 by
            simp [transfer_eth, hc, haddr]] at hmem
      rw [ethAfterResolve_events] at hmem
      simp at hmem
    · simp [transfer_eth, hc] at hmem
  · intro n hmem
    by_cases hc : env.connected
    · rw [show (transfer_erc20 env toAddress amountT).1 =
          (erc20AfterResolve env (env.toChecksum toAddress) amountT []).1 by
            simp [transfer_erc20, hc, haddr]] at hmem
      by_cases hlt : env.tokenBalance < amountT
      · rw [erc20AfterResolve_insufficient env _ amountT [] hlt] at hmem
        simp at hmem
      · rw [erc20AfterResolve_sufficient_events env _ amountT [] hlt] at hmem
        simp at hmem
    · simp [transfer_erc20, hc] at hmem
  · intro hc
    rw [show (transfer_eth env toAddress amountE).1 =
        (ethAfterResolve env (env.toChecksum toAddress) []).1 by
          simp [transfer_eth, hc, haddr],
      ethAfterResolve_events, hid]
    simp
  · intro hc hlt
    rw [show (transfer_erc20 env toAddress amountT).1 =
        (erc20AfterResolve env (env.toChecksum toAddress) amountT []).1 by
          simp [transfer_erc20, hc, haddr],
      erc20AfterResolve_sufficient_events env _ amountT [] hlt, hid]
    simp
  · intro t hmem
    rcases hmem with ⟨n, hmem⟩
    by_cases hc : env.connected
    · by_cases ha : env.isAddress t = true
      · rw [show (transfer_eth env t amountE).1 =
            (ethAfterResolve env (env.toChecksum t) []).1 by
              simp [transfer_eth, hc, ha],
          ethAfterResolve_events] at hmem
        simp at hmem
      · simpa using ha
    · simp [transfer_eth, hc] at hmem

/-- C10: `transfer_eth` never fails fast on insufficient native
balance: whenever it is connected and the recipient resolves, it reads
the nonce, signs and submits without querying any balance of the
sender, while `transfer_erc20` under the same conditions does query the
token balance before submitting. -/
theorem c10_eth_no_balance_check (env : ChainEnv) (toAddress : String)
    (amountE : ℚ) (amountT : ℤ) (hc : env.connected = true)
    (hr : env.isAddress toAddress = true ∨ (env.ens toAddress).isSome) :
    TEv.getBalanceCall ∉ (transfer_eth env toAddress amountE).1 ∧
      TEv.balanceOfCall ∉ (transfer_eth env toAddress amountE).1 ∧
      TEv.nonceRead ∈ (transfer_eth env toAddress amountE).1 ∧
      (∃ a, TEv.signTx a ∈ (transfer_eth env toAddress amountE).1) ∧
      TEv.submitTx ∈ (transfer_eth env toAddress amountE).1 ∧
      TEv.balanceOfCall ∈ (transfer_erc20 env toAddress amountT).1 := by
  have heth : ∃ pre, (transfer_eth env toAddress amountE).1 =
      pre ++ [TEv.nonceRead, TEv.signTx (match env.isAddress toAddress with
        | true => env.toChecksum toAddress
        | false => (env.ens toAddress).getD toAddress), TEv.submitTx] := by
    by_cases ha : env.isAddress toAddress = true
    · refine ⟨[], ?_⟩
      rw [show (transfer_eth env toAddress amountE).1 =
          (ethAfterResolve env (env.toChecksum toAddress) []).1 by
            simp [transfer_eth, hc, ha],
        ethAfterResolve_events]
      simp [ha]
    · rcases hr with h | h
      · exact absurd h ha
      · rcases Option.isSome_iff_exists.mp h with ⟨a, hens⟩
        refine ⟨[TEv.ensLookup toAddress], ?_⟩
        rw [show (transfer_eth env toAddress amountE).1 =
            (ethAfterResolve env a [TEv.ensLookup toAddress]).1 by
              simp [transfer_eth, hc, ha, hens],
          ethAfterResolve_events]
        have hb : env.isAddress toAddress = false := by simpa using ha
        simp [hb, hens]
  have herc : TEv.balanceOfCall ∈ (transfer_erc20 env toAddress amountT).1 := by
    by_cases ha : env.isAddress toAddress = true
    · rw [show (transfer_erc20 env toAddress amountT).1 =
          (erc20AfterResolve env (env.toChecksum toAddress) amountT []).1 by
            simp [transfer_erc20, hc, ha]]
      exact erc20AfterResolve_balanceOf_mem env _ amountT []
    · rcases hr with h | h
      · exact absurd h ha
      · rcases Option.isSome_iff_exists.mp h with ⟨a, hens⟩
        rw [show (transfer_erc20 env toAddress amountT).1 =
            (erc20AfterResolve env a amountT [TEv.ensLookup toAddress]).1 by
              simp [transfer_erc20, hc, ha, hens]]
        exact erc20AfterResolve_balanceOf_mem env a amountT _
  rcases heth with ⟨pre, hpre⟩
  have hpre2 : ∀ e ∈ pre, ∃ n, e = TEv.ensLookup n := by
    intro e he
    rcases heq : pre with _ | ⟨x, xs⟩
    · rw [heq] at he; simp at he
    · by_cases ha : env.isAddress toAddress = true
      · exfalso
        rw [show (transfer_eth env toAddress amountE).1 =
            (ethAfterResolve env (env.toChecksum toAddress) []).1 by
              simp [transfer_eth, hc, ha],
          ethAfterResolve_events] at hpre
        rw [heq] at hpre
        have := congrArg List.length hpre
        simp at this
      · rcases hr with h | h
        · exact absurd h ha
        · rcases Option.isSome_iff_exists.mp h with ⟨a, hens⟩
          rw [show (transfer_eth env toAddress amountE).1 =
              (ethAfterResolve env a [TEv.ensLookup toAddress]).1 by
                simp [transfer_eth, hc, ha, hens],
            ethAfterResolve_events] at hpre
          rw [heq] at hpre
          have hx : x = TEv.ensLookup toAddress ∧ xs = [] := by
            have h1 := congrArg (fun l => l.get? 0) hpre
            have h2 := congrArg List.length hpre
            simp at h1 h2
            exact ⟨h1.symm, h2⟩
          rw [heq] at he
          rcases List.mem_cons.mp he with h1 | h2
          · exact ⟨toAddress, by rw [h1, hx.1]⟩
          · rw [hx.2] at h2; simp at h2
  refine ⟨?_, ?_, ?_, ?_, ?_, herc⟩
  · rw [hpre]
    intro hmem
    rcases List.mem_append.mp hmem with h | h
    · rcases hpre2 _ h with ⟨n, hn⟩; exact TEv.noConfusion hn
    · simp at h
  · rw [hpre]
    intro hmem
    rcases List.mem_append.mp hmem with h | h
    · rcases hpre2 _ h with ⟨n, hn⟩; exact TEv.noConfusion hn
    · simp at h
  · rw [hpre]; simp
  · refine ⟨match env.isAddress toAddress with
      | true => env.toChecksum toAddress
      | false => (env.ens toAddress).getD toAddress, ?_⟩
    rw [hpre]; simp
  · rw [hpre]; simp

/-! ### Claim C7: the ERC-20 decision path -/

/-- C7: for every input, `erc20_instructions_in_post` raises before
issuing any completion request and never returns a decision: it calls
`get_wallet_balance` with three arguments against a two-parameter
definition, so the balance query raises `TypeError` on every call. -/
theorem c7_erc20_path_always_raises (posts : List String)
    (privateKey rpcUrl erc20Addr : String) (bal : ℚ) (http : HttpEnv) :
    (erc20_instructions_in_post posts privateKey rpcUrl erc20Addr bal http).2 =
      Except.error PyExn.typeError ∧
      EEv.httpPost ∉
        (erc20_instructions_in_post posts privateKey rpcUrl erc20Addr bal http).1 := by
  have hcall : callGetWalletBalance [privateKey, rpcUrl, erc20Addr] bal =
      Except.error PyExn.typeError := by
    simp [callGetWalletBalance, getWalletBalanceParamCount]
  constructor
  · simp [erc20_instructions_in_post, hcall]
  · simp [erc20_instructions_in_post, hcall]

/-! ### Helper lemmas on the regex scanner -/

lemma hex_isWord {c : Char} (h : isHexChar c = true) : isWordChar c = true := by
  unfold isHexChar at h
  unfold isWordChar
  simp only [Bool.or_eq_true, Bool.and_eq_true, decide_eq_true_eq, beq_iff_eq] at h ⊢
  omega

lemma hex_ne_dot {c : Char} (h : isHexChar c = true) : c ≠ '.' := by
  intro he
  subst he
  exact absurd h (by decide)

lemma tryAlt1_shape {cs : List Char} {n : Nat} (h : tryAlt1 cs = some n) :
    n = 42 ∧ isHexAddrChars (cs.take 42) = true := by
  match cs with
  | [] => simp [tryAlt1] at h
  | [c0] => simp [tryAlt1] at h
  | c0 :: c1 :: rest =>
    rw [show tryAlt1 (c0 :: c1 :: rest) =
        (if (c0 == '0') && (c1 == 'x') && ((rest.take 40).length == 40) &&
            (rest.take 40).all isHexChar && wordBreakAfter rest 40
          then some 42 else none) from rfl] at h
    split at h
    next hcond =>
      simp only [Bool.and_eq_true, beq_iff_eq] at hcond
      obtain ⟨⟨⟨⟨h0, h1⟩, h2⟩, h3⟩, _h4⟩ := hcond
      refine ⟨(Option.some.inj h).symm, ?_⟩
      rw [List.take_succ_cons, List.take_succ_cons]
      unfold isHexAddrChars
      simp [h0, h1, h2, h3]
    next => exact Option.noConfusion h

lemma alt2Ok_shape {cs : List Char} {j : Nat} (h : alt2Ok cs j = true) :
    isEthShapeChars (cs.take (j + 4)) = true := by
  unfold alt2Ok at h
  simp only [Bool.and_eq_true, decide_eq_true_eq, beq_iff_eq] at h
  obtain ⟨⟨⟨h1, h2⟩, h3⟩, _h4⟩ := h
  have hlen4 : 4 ≤ (cs.drop j).length := by
    have hl := congrArg List.length h3
    rw [List.length_take] at hl
    simp only [List.length_cons, List.length_nil] at hl
    omega
  have hjlen : j + 4 ≤ cs.length := by
    rw [List.length_drop] at hlen4
    omega
  have hjtake : (cs.take j).length = j := by
    rw [List.length_take]
    omega
  rw [List.take_add, h3]
  have hlen : (cs.take j ++ ['.', 'e', 't', 'h']).length = j + 4 := by
    rw [List.length_append, hjtake]
    rfl
  unfold isEthShapeChars
  rw [hlen]
  simp only [Bool.and_eq_true, decide_eq_true_eq, beq_iff_eq]
  refine ⟨⟨by omega, ?_⟩, ?_⟩
  · rw [List.all_append]
    simp only [Bool.and_eq_true]
    exact ⟨h2, by decide⟩
  · rw [show j + 4 - 4 = j from by omega]
    exact List.drop_left' hjtake

lemma bestJ_ok {cs : List Char} : ∀ {m j : Nat}, bestJ cs m = some j →
    alt2Ok cs j = true := by
  intro m
  induction m with
  | zero => intro j h; simp [bestJ] at h
  | succ m ih =>
    intro j h
    unfold bestJ at h
    split at h
    next hok => exact Option.some.inj h ▸ hok
    next => exact ih h

lemma bestJ_none {cs : List Char} (hall : ∀ j, alt2Ok cs j = false) :
    ∀ m, bestJ cs m = none := by
  intro m
  induction m with
  | zero => rfl
  | succ m ih =>
    unfold bestJ
    rw [hall (m + 1)]
    simpa using ih

lemma tryAlt2_shape {cs : List Char} {n : Nat} (h : tryAlt2 cs = some n) :
    isEthShapeChars (cs.take n) = true := by
  unfold tryAlt2 at h
  cases hbj : bestJ cs cs.length with
  | none => rw [hbj] at h; exact Option.noConfusion h
  | some j =>
    rw [hbj] at h
    rw [← Option.some.inj h]
    exact alt2Ok_shape (bestJ_ok hbj)

lemma alt2Ok_false_of_no_dot {cs : List Char} (hnd : ∀ c ∈ cs, c ≠ '.')
    (j : Nat) : alt2Ok cs j = false := by
  unfold alt2Ok
  cases hq : ((cs.drop j).take 4 == ['.', 'e', 't', 'h']) with
  | false => simp [hq]
  | true =>
    exfalso
    have heq : (cs.drop j).take 4 = ['.', 'e', 't', 'h'] := beq_iff_eq.mp hq
    have hdot : '.' ∈ (cs.drop j).take 4 := by
      rw [heq]
      exact List.mem_cons_self _ _
    exact hnd _ (List.mem_of_mem_drop (List.mem_of_mem_take hdot)) rfl

lemma tryAlt2_none_of_no_dot {cs : List Char} (hnd : ∀ c ∈ cs, c ≠ '.') :
    tryAlt2 cs = none := by
  unfold tryAlt2
  rw [bestJ_none (alt2Ok_false_of_no_dot hnd) cs.length]

lemma scanFuel_shape : ∀ (fuel : Nat) (prev : Option Char) (cs l : List Char),
    l ∈ scanFuel fuel prev cs →
      isHexAddrChars l = true ∨ isEthShapeChars l = true := by
  intro fuel
  induction fuel with
  | zero => intro prev cs l h; simp [scanFuel] at h
  | succ fuel ih =>
    intro prev cs l h
    match cs with
    | [] => simp [scanFuel] at h
    | c :: rest =>
      simp only [scanFuel] at h
      by_cases hb : boundaryAt prev c = true
      · rw [if_pos hb] at h
        cases h1 : tryAlt1 (c :: rest) with
        | some n =>
          rw [h1] at h
          rcases List.mem_cons.mp h with hl | hl
          · left
            rcases tryAlt1_shape h1 with ⟨hn, hshape⟩
            rw [hl, hn]
            exact hshape
          · exact ih _ _ _ hl
        | none =>
          rw [h1] at h
          cases h2 : tryAlt2 (c :: rest) with
          | some n =>
            rw [h2] at h
            rcases List.mem_cons.mp h with hl | hl
            · right
              rw [hl]
              exact tryAlt2_shape h2
            · exact ih _ _ _ hl
          | none =>
            rw [h2] at h
            exact ih _ _ _ h
      · rw [if_neg hb] at h
        exact ih _ _ _ h

lemma scanFuel_allWord : ∀ (fuel : Nat) (p : Char) (cs : List Char),
    isWordChar p = true → (∀ c ∈ cs, isWordChar c = true) →
      scanFuel fuel (some p) cs = [] := by
  intro fuel
  induction fuel with
  | zero => intro p cs _ _; simp [scanFuel]
  | succ fuel ih =>
    intro p cs hp hcs
    match cs with
    | [] => simp [scanFuel]
    | c :: rest =>
      have hb : boundaryAt (some p) c = false := by
        show (isWordChar p != isWordChar c) = false
        rw [hp, hcs c (List.mem_cons_self c rest)]
        rfl
      simp only [scanFuel, hb, Bool.false_eq_true, if_false]
      exact ih c rest (hcs c (List.mem_cons_self c rest))
        (fun d hd => hcs d (List.mem_cons_of_mem c hd))

lemma scan_0x_hex (hs : List Char) (hhex : hs.all isHexChar = true)
    (hlen : hs.length = 39 ∨ hs.length = 41) (fuel : Nat) :
    scanFuel fuel none ('0' :: 'x' :: hs) = [] := by
  have hhex2 : ∀ c ∈ hs, isHexChar c = true := by
    intro c hc
    exact List.all_eq_true.mp hhex c hc
  cases fuel with
  | zero => simp [scanFuel]
  | succ fuel =>
    have hb : boundaryAt none '0' = true := by decide
    have ha1 : tryAlt1 ('0' :: 'x' :: hs) = none := by
      unfold tryAlt1
      rcases hlen with h39 | h41
      · have h1 : (hs.take 40).length = 39 := by
          rw [List.length_take]
          omega
        simp [h1]
      · have h1 : (hs.take 40).length = 40 := by
          rw [List.length_take]
          omega
        have hwb : wordBreakAfter hs 40 = false := by
          unfold wordBreakAfter
          cases hd : hs.drop 40 with
          | nil =>
            have := congrArg List.length hd
            rw [List.length_drop] at this
            simp at this
            omega
          | cons d tail =>
            have hdmem : d ∈ hs :=
              List.mem_of_mem_drop (hd ▸ List.mem_cons_self d tail)
            simp [hex_isWord (hhex2 d hdmem)]
        simp [hwb]
    have hnd : ∀ c ∈ '0' :: 'x' :: hs, c ≠ '.' := by
      intro c hc
      rcases List.mem_cons.mp hc with h | hc2
      · subst h; decide
      rcases List.mem_cons.mp hc2 with h | hc3
      · subst h; decide
      · exact hex_ne_dot (hhex2 c hc3)
    have ha2 : tryAlt2 ('0' :: 'x' :: hs) = none := tryAlt2_none_of_no_dot hnd
    simp only [scanFuel, hb, if_true, ha1, ha2]
    exact scanFuel_allWord fuel '0' ('x' :: hs) (by decide)
      (fun d hd => by
        rcases List.mem_cons.mp hd with h | h2
        · subst h; decide
        · exact hex_isWord (hhex2 d h2))

lemma pyFindall_shape {s m : String} (h : m ∈ pyFindall s) :
    isHexAddrChars m.data = true ∨ isEthShapeChars m.data = true := by
  unfold pyFindall at h
  rcases List.mem_map.mp h with ⟨l, hl, hm⟩
  have hd : m.data = l := by rw [← hm]
  rw [hd]
  exact scanFuel_shape _ _ _ _ hl

/-! ### Claim C3: the address extractor -/

def dotEth : String := ".eth"

def aEth : String := "a.eth"

def specExampleInput : String :=
  "send to 0x1111111111111111111111111111111111111111 and alice.eth"

def specExampleAddr : String := "0x1111111111111111111111111111111111111111"

def specExampleEns : String := "alice.eth"

/-- C3 (counterexample): the input record `.eth` is itself a
non-whitespace token ending in `.eth` (the spec-side extractor returns
it), yet the extractor of the code returns the empty sequence on it, so
the output is not the sequence of exactly the qualifying tokens. -/
theorem c3_counterexample :
    wallet_address_in_post_matches (fun s : String => s) [dotEth] = [] ∧
      specExtract [dotEth] = [dotEth] := by
  constructor
  · rfl
  · rfl

/-- C3 (amended): the Address Extractor coerces each record to text and
returns the flat, order-preserving, non-deduplicated concatenation of
the per-record leftmost non-overlapping matches of the pattern; every
returned string is either a `0x`-prefixed 40-hex-digit address or a
non-whitespace string of length at least five ending in `.eth`; a 39-
or 41-hex-digit string adjacent to `0x` is never extracted and empty
input yields the empty sequence.  The converse of the shape property
does not hold for whitespace-delimited tokens: the match needs a
nonempty word-boundary-initial head before `.eth`, so the token `.eth`
itself is never extracted. -/
theorem c3_extractor_characterisation {α : Type} (toStr : α → String) :
    wallet_address_in_post_matches toStr [] = [] ∧
      (∀ posts : List α, wallet_address_in_post_matches toStr posts =
        (posts.map toStr).flatMap pyFindall) ∧
      (∀ s m, m ∈ pyFindall s →
        isHexAddrChars m.data = true ∨ isEthShapeChars m.data = true) ∧
      (∀ hs : List Char, hs.all isHexChar = true →
        hs.length = 39 ∨ hs.length = 41 →
          pyFindall (String.mk ('0' :: 'x' :: hs)) = []) ∧
      pyFindall specExampleInput = [specExampleAddr, specExampleEns] := by
  refine ⟨rfl, fun _ => rfl, ?_, ?_, ?_⟩
  · intro s m h
    exact pyFindall_shape h
  · intro hs hhex hlen
    unfold pyFindall
    rw [scan_0x_hex hs hhex hlen]
    rfl
  · rfl

/-- C3 (witness): the shape soundness conjunct evaluated on the
concrete input `a.eth`, which the extractor returns. -/
theorem c3_witness :
    isHexAddrChars aEth.data = true ∨ isEthShapeChars aEth.data = true :=
  (c3_extractor_characterisation (fun s : String => s)).2.2.1 aEth aEth (by decide)

/-! ### Witnesses for the remaining claim theorems -/

def notifSample : List String := ["gm"]

def sampleHash : String := "0xhash"

def sampleAddr : String := "0xAbCdEf1111111111111111111111111111111111"

/-- Concrete chain environment: connected, every recipient accepted as
a well-formed address, checksum normalisation the identity, no ENS
entries, token balance one base unit. -/
def envSample : ChainEnv :=
  ⟨true, fun _ => true, id, fun _ => none, 1, 0, 5, 0, true, sampleHash⟩

/-- C1 (witness): the amended claim evaluated at a concrete cycle whose
first engine attempt hits a non-2xx response. -/
theorem c1_witness :
    (runCycle notifSample 1 (fun _ => WalletResp.httpError)
        (fun _ => FollowResp.wellFormed [])).2 = some PyErr.engineHttp ∧
      Ev.restOfCycle ∉ (runCycle notifSample 1 (fun _ => WalletResp.httpError)
        (fun _ => FollowResp.wellFormed [])).1 ∧
      Ev.followEngineCall ∉ (runCycle notifSample 1 (fun _ => WalletResp.httpError)
        (fun _ => FollowResp.wellFormed [])).1 :=
  c1_non2xx_aborts_cycle notifSample 1 (fun _ => WalletResp.httpError)
    (fun _ => FollowResp.wellFormed [])
    (by simp [notifSample]) (by norm_num [floatPointThree]) (Or.inl rfl)

/-- C2 (witness): the fail-fast theorem evaluated at a concrete
environment with token balance one and requested amount five. -/
theorem c2_witness :
    (transfer_erc20 envSample sampleAddr 5).2 =
      TResult.insufficientBalance envSample.tokenBalance 5 ∧
      (∀ a, TEv.signTx a ∉ (transfer_erc20 envSample sampleAddr 5).1) ∧
      TEv.submitTx ∉ (transfer_erc20 envSample sampleAddr 5).1 :=
  c2_insufficient_balance_fail_fast envSample sampleAddr 5 rfl (Or.inl rfl)
    (by norm_num [envSample])

/-- C4 (witness): the retry-budget theorem evaluated at a concrete
cycle with two malformed decision responses and a benign follow
engine. -/
theorem c4_witness :
    (runCycle notifSample 1 (fun _ => WalletResp.malformed)
        (fun _ => FollowResp.wellFormed [])).1.count Ev.walletEngineCall = 2 ∧
      (runCycle notifSample 1 (fun _ => WalletResp.malformed)
        (fun _ => FollowResp.wellFormed [])).2 = none ∧
      Ev.restOfCycle ∈ (runCycle notifSample 1 (fun _ => WalletResp.malformed)
        (fun _ => FollowResp.wellFormed [])).1 :=
  c4_two_malformed_retries notifSample 1 (fun _ => WalletResp.malformed)
    (fun _ => FollowResp.wellFormed [])
    (by simp [notifSample]) (by norm_num [floatPointThree]) rfl rfl
    (fun _ h => FollowResp.noConfusion h)

def goodEntry : WalletEntry := ⟨some sampleAddr, some 1⟩

def badEntry : WalletEntry := ⟨none, none⟩

/-- C5 (witness): the missing-field theorem evaluated at a concrete
decision with one complete entry followed by one entry missing its
fields. -/
theorem c5_witness :
    walletLoop (fun _ => WalletResp.wellFormed [goodEntry, badEntry]) 0 2 =
      (Ev.walletEngineCall :: execEntries [goodEntry], none) ∧
      (execEntries [goodEntry]).length = [goodEntry].length ∧
      (walletLoop (fun _ => WalletResp.wellFormed [goodEntry, badEntry]) 0 2).1.count
        Ev.walletEngineCall = 1 :=
  c5_missing_field_aborts_rest (fun _ => WalletResp.wellFormed [goodEntry, badEntry])
    [goodEntry] badEntry []
    (by
      intro e he
      rw [List.mem_singleton] at he
      subst he
      exact ⟨rfl, rfl⟩)
    (Or.inl rfl) rfl

/-- C6 (witness): the balance-gate theorem evaluated at a concrete
cycle with balance zero. -/
theorem c6_witness :
    (runCycle notifSample 0 (fun _ => WalletResp.malformed)
      (fun _ => FollowResp.wellFormed [])).1.count Ev.walletEngineCall = 0 :=
  c6_balance_gate notifSample 0 (fun _ => WalletResp.malformed)
    (fun _ => FollowResp.wellFormed []) (by norm_num [floatPointThree])

/-- C8 (witness): the checksum-identity theorem evaluated at a concrete
environment whose well-formedness test accepts the sample address and
whose checksum normalisation is the identity. -/
theorem c8_witness :
    (∀ n, TEv.ensLookup n ∉ (transfer_eth envSample sampleAddr 1).1) ∧
      (∀ n, TEv.ensLookup n ∉ (transfer_erc20 envSample sampleAddr 1).1) ∧
      (envSample.connected = true →
        TEv.signTx sampleAddr ∈ (transfer_eth envSample sampleAddr 1).1) ∧
      (envSample.connected = true → ¬ envSample.tokenBalance < 1 →
        TEv.signTx sampleAddr ∈ (transfer_erc20 envSample sampleAddr 1).1) ∧
      (∀ t, (∃ n, TEv.ensLookup n ∈ (transfer_eth envSample t 1).1) →
        envSample.isAddress t = false) :=
  c8_checksum_identity_no_ens envSample sampleAddr 1 1 rfl rfl

/-- C9 (witness): the empty-decision theorem evaluated at a concrete
engine response stream whose first answer is the empty payload. -/
theorem c9_witness :
    walletLoop (fun _ => WalletResp.wellFormed []) 0 2 = ([Ev.walletEngineCall], none) ∧
      ∀ a m, Ev.transferEth a m ∉
        (walletLoop (fun _ => WalletResp.wellFormed []) 0 2).1 :=
  c9_empty_decision_noop (fun _ => WalletResp.wellFormed []) rfl

/-- C10 (witness): the no-balance-check theorem evaluated at the
concrete sample environment and recipient. -/
theorem c10_witness :
    TEv.getBalanceCall ∉ (transfer_eth envSample sampleAddr 1).1 ∧
      TEv.balanceOfCall ∉ (transfer_eth envSample sampleAddr 1).1 ∧
      TEv.nonceRead ∈ (transfer_eth envSample sampleAddr 1).1 ∧
      (∃ a, TEv.signTx a ∈ (transfer_eth envSample sampleAddr 1).1) ∧
      TEv.submitTx ∈ (transfer_eth envSample sampleAddr 1).1 ∧
      TEv.balanceOfCall ∈ (transfer_erc20 envSample sampleAddr 1).1 :=
  c10_eth_no_balance_check envSample sampleAddr 1 1 rfl (Or.inl rfl)

end Nousflash
